import Mathlib

/-!
Verification of the `must-use-result` lint rule of
`deno-lint-plugin-neverthrow`.

The embedding models the syntax tree handed to the rule (`Deno.lint.Node`)
as a mutual inductive type `Node`/`NodeList`, and the parent back-references
used by the rule's upward walks as an explicit list of `Frame`s: the frame at
position `k` describes the `k`-th ancestor of a node (innermost first) — its
node type together with the child slot through which the walk came.  The
helper functions of `src/utils/ast-helpers.ts` (`isInReturnContext`,
`ImportTracker`, `isResultConstructorCall`, `getMethodName`) and the rule
module (`isImmediatelyHandled`, the `CallExpression` / `NewExpression` /
`ExpressionStatement` / `ImportDeclaration` / `Program` visitors of
`mustUseResult`) are translated function by function.  The single pre-order
traversal that Deno lint performs over the tree is made explicit by
`visitN` / `visitL`, which thread the import registry and collect the
reported diagnostics; diagnostics are anchored at the path (list of child
indices) of the reported node, which serves as node identity.
-/

namespace NeverthrowLint

/-- `HANDLED_METHODS` from `utils/ast-helpers.ts`: method names that
indicate Result handling. -/
def HANDLED_METHODS : List String := ["match", "unwrapOr", "_unsafeUnwrap"]

/-- `RESULT_METHODS` from `utils/ast-helpers.ts`: Result methods that do not
handle the Result. -/
def RESULT_METHODS : List String :=
  ["map", "mapErr", "andThen", "orElse", "asyncAndThen", "asyncMap", "isOk",
   "isErr"]

/-- The four factory names checked by the `CallExpression` visitor
(`["ok", "err", "okAsync", "errAsync"]` in `rules/must-use-result.ts` and in
`isResultConstructorCall`). -/
def FACTORY_NAMES : List String := ["ok", "err", "okAsync", "errAsync"]

/-- The fixed exclusion list of the heuristic branch of the `CallExpression`
visitor (`callee.name !== "isResultConstructorCall" && ...`). -/
def EXCLUDED_NAMES : List String :=
  ["isResultConstructorCall", "isResultMethodCall", "isResultIdentifier",
   "hasResultMethodChain", "checkResult", "hasResult", "processResult"]

/-- The fixed diagnostic message used by every `context.report` call of the
rule. -/
def RULE_MESSAGE : String :=
  "Result must be handled with either match, unwrapOr, or _unsafeUnwrap"

/-- The three import specifier forms of `ImportTracker.trackImport`. -/
inductive SpecKind where
  | namedSpec
  | defaultSpec
  | namespaceSpec
deriving DecidableEq, Repr

/-- An import specifier: its form and its local name
(`specifier.local.name`). -/
structure ImportSpec where
  kind : SpecKind
  localName : String
deriving DecidableEq, Repr

mutual
/-- The syntax-tree nodes the rule inspects (`Deno.lint.Node`).  A
`member` node carries its property name and whether the access is computed
(`getMethodName` returns the name only for a non-computed identifier
property).  `arrow` is an `ArrowFunctionExpression` with an expression body;
`arrowBlock` one with a block-statement body. -/
inductive Node where
  | ident (name : String)
  | lit (value : String)
  | call (callee : Node) (args : NodeList)
  | newE (callee : Node) (args : NodeList)
  | member (obj : Node) (prop : String) (computed : Bool)
  | arrow (body : Node)
  | arrowBlock (body : Node)
  | funcExprE (body : Node)
  | exprStmt (e : Node)
  | retE (e : Node)
  | retVoid
  | block (stmts : NodeList)
  | funcDecl (name : String) (body : Node)
  | ifS (cond : Node) (thn : Node)
  | whileS (cond : Node) (body : Node)
  | importDecl (source : String) (specs : List ImportSpec)
  | program (stmts : NodeList)

/-- Lists of child nodes (arguments, statement lists). -/
inductive NodeList where
  | nil
  | cons (head : Node) (tail : NodeList)
end

/-- One step of a node's parent back-reference chain: the type of the parent
node together with the child slot occupied by the node below it.
`frCall true` means the parent is a `CallExpression` and the node is its
callee; `frMember fromObject methodName` records `getMethodName` of the
parent member expression. -/
inductive Frame where
  | frCall (fromCallee : Bool)
  | frNew (fromCallee : Bool)
  | frMember (fromObject : Bool) (methodName : Option String)
  | frArrow (fromBody : Bool)
  | frExprStmt
  | frRet
  | frBlock
  | frFuncDecl
  | frFuncExpr
  | frIf
  | frWhile
  | frProgram
deriving DecidableEq, Repr

/-- A reported diagnostic: the path of the anchor node in the tree (child
indices from the root, serving as node identity) and the message. -/
structure Diag where
  anchor : List Nat
  message : String
deriving DecidableEq, Repr

/-- `getMethodName` from `utils/ast-helpers.ts`: the property name of a
member expression whose property is an identifier. -/
def getMethodName : Node → Option String
  | .member _ prop computed => if computed then none else some prop
  | _ => none

/-- `isResultConstructorCall` from `utils/ast-helpers.ts`. -/
def isResultConstructorCall : Node → Bool
  | .newE callee _ =>
    match callee with
    | .ident n => n == "Ok" || n == "Err"
    | _ => false
  | .call callee _ =>
    match callee with
    | .ident n => FACTORY_NAMES.contains n
    | _ => false
  | _ => false

/-- A character-list prefix test (used to model
`String.prototype.includes`). -/
def hasPrefixCL : List Char → List Char → Bool
  | [], _ => true
  | _ :: _, [] => false
  | p :: ps, c :: cs => p == c && hasPrefixCL ps cs

/-- Substring containment on character lists. -/
def containsCL (pat : List Char) : List Char → Bool
  | [] => pat.isEmpty
  | c :: cs => hasPrefixCL pat (c :: cs) || containsCL pat cs

/-- `name.toLowerCase()` (ASCII, as exercised by the rule). -/
def strLower (s : String) : String := String.mk (s.data.map Char.toLower)

/-- `callee.name.toLowerCase().includes("result")` — the heuristic test of
the `CallExpression` visitor. -/
def nameContainsResult (name : String) : Bool :=
  containsCL "result".data (strLower name).data

/-- `isInReturnContext` from `utils/ast-helpers.ts`, as a function of the
parent chain of the node: walk upward; a `ReturnStatement` succeeds; an
`ArrowFunctionExpression` succeeds exactly when the node lies under (or is)
its body, and is otherwise walked past; `FunctionDeclaration`,
`FunctionExpression` and `BlockStatement` stop the walk; every other parent
is walked past. -/
def isInReturnContext : List Frame → Bool
  | [] => false
  | .frRet :: _ => true
  | .frArrow fromBody :: rest =>
    if fromBody then true else isInReturnContext rest
  | .frFuncDecl :: _ => false
  | .frFuncExpr :: _ => false
  | .frBlock :: _ => false
  | _ :: rest => isInReturnContext rest

/-- `isImmediatelyHandled` from `rules/must-use-result.ts`, as a function of
the parent chain: walk upward; at a `MemberExpression` whose method name is
one of `HANDLED_METHODS` and which is itself the callee of an enclosing
`CallExpression`, succeed; `MemberExpression` and `CallExpression` parents
are otherwise walked past; any other parent stops the walk. -/
def isImmediatelyHandled : List Frame → Bool
  | [] => false
  | .frMember _ mn :: rest =>
    (match mn with
     | some m =>
       if HANDLED_METHODS.contains m then
         (match rest with
          | .frCall true :: _ => true
          | _ => isImmediatelyHandled rest)
       else isImmediatelyHandled rest
     | none => isImmediatelyHandled rest)
  | .frCall _ :: rest => isImmediatelyHandled rest
  | _ :: _ => false

/-- `Set.add` of `ImportTracker.neverthrowImports`. -/
def addImport (imp : List String) (n : String) : List String :=
  if imp.contains n then imp else imp ++ [n]

/-- `ImportTracker.trackImport`: record every specifier's local name when
the declaration's source literal is `"neverthrow"`. -/
def trackImport (imp : List String) : Node → List String
  | .importDecl source specs =>
    if source == "neverthrow" then
      specs.foldl (fun acc sp =>
        match sp.kind with
        | .namedSpec => addImport acc sp.localName
        | .defaultSpec => addImport acc sp.localName
        | .namespaceSpec => addImport acc sp.localName) imp
    else imp
  | _ => imp

/-- The `CallExpression` visitor of `mustUseResult` (the part that decides
whether to report the node): skip when in return context or immediately
handled; otherwise report a factory call whose bare-identifier callee is
registry-bound, and report a call whose callee name contains "result"
case-insensitively and is not on the exclusion list. -/
def callExpressionVisitor (imp : List String) (path : List Nat)
    (ctx : List Frame) (callee : Node) : List Diag :=
  if isInReturnContext ctx then []
  else if isImmediatelyHandled ctx then []
  else
    match callee with
    | .ident name =>
      (if FACTORY_NAMES.contains name && imp.contains name then
        [⟨path, RULE_MESSAGE⟩] else [])
      ++
      (if nameContainsResult name && !(EXCLUDED_NAMES.contains name) then
        [⟨path, RULE_MESSAGE⟩] else [])
    | _ => []

/-- The `NewExpression` visitor of `mustUseResult`: skip when in return
context or immediately handled; otherwise report when
`isResultConstructorCall` holds. -/
def newExpressionVisitor (path : List Nat) (ctx : List Frame)
    (node : Node) : List Diag :=
  if isInReturnContext ctx then []
  else if isImmediatelyHandled ctx then []
  else if isResultConstructorCall node then [⟨path, RULE_MESSAGE⟩]
  else []

/-- The `ExpressionStatement` visitor of `mustUseResult`: it checks the
return context of its expression and the registry-bound-factory shape, but
deliberately reports nothing on every path (the `CallExpression` and
`NewExpression` visitors already handle those nodes). -/
def expressionStatementVisitor (imp : List String) (ctx : List Frame)
    (e : Node) : List Diag :=
  if isInReturnContext (Frame.frExprStmt :: ctx) then []
  else
    match e with
    | .call callee _ =>
      (match callee with
       | .ident name =>
         if FACTORY_NAMES.contains name && imp.contains name then [] else []
       | _ => [])
    | _ => []

mutual
/-- The single pre-order traversal Deno lint performs, with the visitors of
`mustUseResult` attached: at each node the visitor matching the node's type
fires (parent before children), threading the import registry and
accumulating diagnostics in traversal order.  `path` is the node's position
and `ctx` its parent chain; children are visited with the matching frame
pushed. -/
def visitN (imp : List String) (path : List Nat) (ctx : List Frame) :
    Node → List String × List Diag
  | .ident _ => (imp, [])
  | .lit _ => (imp, [])
  | .call callee args =>
    let own := callExpressionVisitor imp path ctx callee
    let r1 := visitN imp (path ++ [0]) (.frCall true :: ctx) callee
    let r2 := visitL r1.1 path 1 (.frCall false :: ctx) args
    (r2.1, own ++ r1.2 ++ r2.2)
  | .newE callee args =>
    let own := newExpressionVisitor path ctx (.newE callee args)
    let r1 := visitN imp (path ++ [0]) (.frNew true :: ctx) callee
    let r2 := visitL r1.1 path 1 (.frNew false :: ctx) args
    (r2.1, own ++ r1.2 ++ r2.2)
  | .member obj prop computed =>
    visitN imp (path ++ [0])
      (.frMember true (getMethodName (.member obj prop computed)) :: ctx) obj
  | .arrow body => visitN imp (path ++ [0]) (.frArrow true :: ctx) body
  | .arrowBlock body => visitN imp (path ++ [0]) (.frArrow true :: ctx) body
  | .funcExprE body => visitN imp (path ++ [0]) (.frFuncExpr :: ctx) body
  | .exprStmt e =>
    let own := expressionStatementVisitor imp ctx e
    let r := visitN imp (path ++ [0]) (.frExprStmt :: ctx) e
    (r.1, own ++ r.2)
  | .retE e => visitN imp (path ++ [0]) (.frRet :: ctx) e
  | .retVoid => (imp, [])
  | .block stmts => visitL imp path 0 (.frBlock :: ctx) stmts
  | .funcDecl _ body => visitN imp (path ++ [0]) (.frFuncDecl :: ctx) body
  | .ifS cond thn =>
    let r1 := visitN imp (path ++ [0]) (.frIf :: ctx) cond
    let r2 := visitN r1.1 (path ++ [1]) (.frIf :: ctx) thn
    (r2.1, r1.2 ++ r2.2)
  | .whileS cond body =>
    let r1 := visitN imp (path ++ [0]) (.frWhile :: ctx) cond
    let r2 := visitN r1.1 (path ++ [1]) (.frWhile :: ctx) body
    (r2.1, r1.2 ++ r2.2)
  | .importDecl source specs =>
    (trackImport imp (.importDecl source specs), [])
  | .program stmts =>
    -- the `Program` visitor clears the registry before the unit is walked
    visitL [] path 0 (.frProgram :: ctx) stmts

/-- Traversal of a child list starting at child index `i`. -/
def visitL (imp : List String) (path : List Nat) (i : Nat)
    (ctx : List Frame) : NodeList → List String × List Diag
  | .nil => (imp, [])
  | .cons h t =>
    let r1 := visitN imp (path ++ [i]) ctx h
    let r2 := visitL r1.1 path (i + 1) ctx t
    (r2.1, r1.2 ++ r2.2)
end

/-- Analysis of a single compilation unit (a `Program` node) with a
freshly-initialized registry. -/
def lintUnit (p : Node) : List Diag := (visitN [] [] [] p).2

/-- Analysis of a sequence of compilation units threading the registry state
from one unit to the next, collecting each unit's diagnostics. -/
def lintUnits (imp : List String) : List Node → List (List Diag)
  | [] => []
  | p :: ps =>
    (visitN imp [] [] p).2 :: lintUnits (visitN imp [] [] p).1 ps

/-- Argument expressions that are plain identifiers or literals (and hence
produce no diagnostics of their own). -/
def simpleArg : Node → Bool
  | .ident _ => true
  | .lit _ => true
  | _ => false

/-- All arguments of a list are simple. -/
def simpleArgs : NodeList → Bool
  | .nil => true
  | .cons h t => simpleArg h && simpleArgs t

/-- Wrap `base` in method-call steps: `chainWrap base [m1, ..., mk]` is the
expression `base.m1()....mk()` (built innermost step first). -/
def chainWrap (base : Node) : List String → Node
  | [] => base
  | m :: ms => chainWrap (.call (.member base m false) .nil) ms

/-- A full method chain `base.m1()....mk().h()` with a terminal method
`h`. -/
def chainCall (base : Node) (ms : List String) (h : String) : Node :=
  .call (.member (chainWrap base ms) h false) .nil

/-- The path of the producing node inside
`.exprStmt (chainCall base ms h)` placed at `path`, for `k = ms.length`:
one step into the statement, two steps into the terminal call, and two
steps per interposed method. -/
def chainAnchor (path : List Nat) (k : Nat) : List Nat :=
  path ++ 0 :: 0 :: 0 :: List.replicate (2 * k) 0

/-- Frames of wrapper expressions (call, constructor invocation, member
access): parents both upward walks pass through. -/
def isWrapperFrame : Frame → Bool
  | .frCall _ => true
  | .frNew _ => true
  | .frMember _ _ => true
  | _ => false

/-- Frames the `isInReturnContext` walk passes through without succeeding
and without stopping. -/
def continuesWalk : Frame → Bool
  | .frRet => false
  | .frArrow b => !b
  | .frBlock => false
  | .frFuncDecl => false
  | .frFuncExpr => false
  | _ => true

/-- A producing node in the sense of the spec's claims: a registry-bound
factory call, or an `Ok`/`Err` constructor invocation — in both cases with
simple arguments so that the node's subtree contributes no further
diagnostics. -/
inductive ProducingN (imp : List String) : Node → Prop where
  | factory (name : String) (args : NodeList)
      (hf : FACTORY_NAMES.contains name = true)
      (hb : imp.contains name = true)
      (hs : simpleArgs args = true) : ProducingN imp (.call (.ident name) args)
  | ctor (name : String) (args : NodeList)
      (hn : name = "Ok" ∨ name = "Err")
      (hs : simpleArgs args = true) : ProducingN imp (.newE (.ident name) args)

/-- A node whose visit reports nothing and leaves the registry unchanged in
any context in which it is immediately handled. -/
def QuietAt (base : Node) : Prop :=
  ∀ (imp : List String) (path : List Nat) (ctx : List Frame),
    isImmediatelyHandled ctx = true → visitN imp path ctx base = (imp, [])

/-- A node whose visit, in any context that is neither a return context nor
immediately handled, reports exactly one diagnostic anchored `k` levels of
first-child steps below the node's own position. -/
def ReportDeep (imp : List String) (k : Nat) (base : Node) : Prop :=
  ∀ (path : List Nat) (ctx : List Frame),
    isInReturnContext ctx = false → isImmediatelyHandled ctx = false →
    visitN imp path ctx base
      = (imp, [⟨path ++ List.replicate k 0, RULE_MESSAGE⟩])

/- ### Helper lemmas -/

theorem contains_eq_true_iff {l : List String} {a : String} :
    l.contains a = true ↔ a ∈ l :=
  ⟨List.mem_of_elem_eq_true, List.elem_eq_true_of_mem⟩

theorem not_mem_of_contains_eq_false {l : List String} {a : String}
    (h : l.contains a = false) : ¬ a ∈ l := by
  intro hmem
  rw [contains_eq_true_iff.mpr hmem] at h
  exact Bool.false_ne_true h.symm

theorem factory_cases {n : String} (h : FACTORY_NAMES.contains n = true) :
    n = "ok" ∨ n = "err" ∨ n = "okAsync" ∨ n = "errAsync" := by
  have hm := List.mem_of_elem_eq_true h
  simpa [FACTORY_NAMES] using hm

theorem factory_not_result {n : String} (h : FACTORY_NAMES.contains n = true) :
    nameContainsResult n = false := by
  rcases factory_cases h with rfl | rfl | rfl | rfl <;> decide

theorem excluded_not_factory {n : String}
    (h : EXCLUDED_NAMES.contains n = true) :
    FACTORY_NAMES.contains n = false := by
  have hm := List.mem_of_elem_eq_true h
  simp only [EXCLUDED_NAMES, List.mem_cons, List.not_mem_nil, or_false] at hm
  rcases hm with rfl | rfl | rfl | rfl | rfl | rfl | rfl <;> decide

theorem result_methods_not_handled {m : String}
    (h : RESULT_METHODS.contains m = true) :
    HANDLED_METHODS.contains m = false := by
  have hm := List.mem_of_elem_eq_true h
  simp only [RESULT_METHODS, List.mem_cons, List.not_mem_nil, or_false] at hm
  rcases hm with rfl | rfl | rfl | rfl | rfl | rfl | rfl | rfl <;> decide

theorem continuesWalk_cons {f : Frame} (hf : continuesWalk f = true)
    (rest : List Frame) :
    isInReturnContext (f :: rest) = isInReturnContext rest := by
  cases f <;> simp [continuesWalk] at hf <;> simp_all [isInReturnContext]

theorem wrapper_continuesWalk {f : Frame} (hf : isWrapperFrame f = true) :
    continuesWalk f = true := by
  cases f <;> simp_all [isWrapperFrame, continuesWalk]

theorem retWalk_of_ret {pre rest : List Frame}
    (h : ∀ f ∈ pre, continuesWalk f = true) :
    isInReturnContext (pre ++ Frame.frRet :: rest) = true := by
  induction pre with
  | nil => rfl
  | cons f pre ih =>
    rw [List.cons_append, continuesWalk_cons (h f (by simp))]
    exact ih fun g hg => h g (by simp [hg])

theorem retWalk_of_arrowBody {pre rest : List Frame}
    (h : ∀ f ∈ pre, continuesWalk f = true) :
    isInReturnContext (pre ++ Frame.frArrow true :: rest) = true := by
  induction pre with
  | nil => rfl
  | cons f pre ih =>
    rw [List.cons_append, continuesWalk_cons (h f (by simp))]
    exact ih fun g hg => h g (by simp [hg])

theorem retWalk_halts_at_block {pre rest : List Frame}
    (h : ∀ f ∈ pre, continuesWalk f = true) :
    isInReturnContext (pre ++ Frame.frBlock :: rest) = false := by
  induction pre with
  | nil => rfl
  | cons f pre ih =>
    rw [List.cons_append, continuesWalk_cons (h f (by simp))]
    exact ih fun g hg => h g (by simp [hg])

theorem retWalk_halts_at_funcDecl {pre rest : List Frame}
    (h : ∀ f ∈ pre, continuesWalk f = true) :
    isInReturnContext (pre ++ Frame.frFuncDecl :: rest) = false := by
  induction pre with
  | nil => rfl
  | cons f pre ih =>
    rw [List.cons_append, continuesWalk_cons (h f (by simp))]
    exact ih fun g hg => h g (by simp [hg])

theorem handled_cons_member_call {b c : Bool} {mn : Option String}
    {ctx : List Frame} (h : isImmediatelyHandled ctx = true) :
    isImmediatelyHandled (.frMember b mn :: .frCall c :: ctx) = true := by
  cases mn with
  | none => simpa [isImmediatelyHandled] using h
  | some m =>
    by_cases hm : HANDLED_METHODS.contains m = true
    · cases c <;> simp_all [isImmediatelyHandled]
    · simp only [Bool.not_eq_true] at hm
      simp_all [isImmediatelyHandled]

theorem handled_of_handled_head {b : Bool} {m : String} {ctx : List Frame}
    (hm : HANDLED_METHODS.contains m = true) :
    isImmediatelyHandled (.frMember b (some m) :: .frCall true :: ctx)
      = true := by
  simp [isImmediatelyHandled]
  exact Or.inl (contains_eq_true_iff.mp hm)

theorem handled_cons_notHandled {b c : Bool} {m : String} {ctx : List Frame}
    (hm : HANDLED_METHODS.contains m = false) :
    isImmediatelyHandled (.frMember b (some m) :: .frCall c :: ctx)
      = isImmediatelyHandled ctx := by
  have hnm : ¬ m ∈ HANDLED_METHODS := by
    intro hmem
    rw [contains_eq_true_iff.mpr hmem] at hm
    exact Bool.false_ne_true hm.symm
  simp [isImmediatelyHandled, hnm]

theorem exprStmtVisitor_eq_nil (imp : List String) (ctx : List Frame)
    (e : Node) : expressionStatementVisitor imp ctx e = [] := by
  unfold expressionStatementVisitor
  repeat' split
  all_goals rfl

theorem callVisitor_of_retCtx {ctx : List Frame}
    (h : isInReturnContext ctx = true) (imp : List String) (path : List Nat)
    (callee : Node) : callExpressionVisitor imp path ctx callee = [] := by
  simp [callExpressionVisitor, h]

theorem callVisitor_of_handledCtx {ctx : List Frame}
    (h : isImmediatelyHandled ctx = true) (imp : List String)
    (path : List Nat) (callee : Node) :
    callExpressionVisitor imp path ctx callee = [] := by
  simp [callExpressionVisitor, h]

theorem callVisitor_member (imp : List String) (path : List Nat)
    (ctx : List Frame) (o : Node) (p : String) (c : Bool) :
    callExpressionVisitor imp path ctx (.member o p c) = [] := by
  simp [callExpressionVisitor]

theorem newVisitor_of_retCtx {ctx : List Frame}
    (h : isInReturnContext ctx = true) (path : List Nat) (node : Node) :
    newExpressionVisitor path ctx node = [] := by
  simp [newExpressionVisitor, h]

theorem newVisitor_of_handledCtx {ctx : List Frame}
    (h : isImmediatelyHandled ctx = true) (path : List Nat) (node : Node) :
    newExpressionVisitor path ctx node = [] := by
  simp [newExpressionVisitor, h]

theorem visit_simpleArg {n : Node} (h : simpleArg n = true)
    (imp : List String) (path : List Nat) (ctx : List Frame) :
    visitN imp path ctx n = (imp, []) := by
  cases n <;> simp [simpleArg] at h <;> rfl

theorem visitL_simpleArgs : ∀ (l : NodeList) (imp : List String)
    (path : List Nat) (i : Nat) (ctx : List Frame),
    simpleArgs l = true → visitL imp path i ctx l = (imp, [])
  | .nil, _, _, _, _, _ => rfl
  | .cons a t, imp, path, i, ctx, hs => by
    have h1 : simpleArg a = true := by
      have h := hs
      simp only [simpleArgs, Bool.and_eq_true] at h
      exact h.1
    have h2 : simpleArgs t = true := by
      have h := hs
      simp only [simpleArgs, Bool.and_eq_true] at h
      exact h.2
    simp [visitL, visit_simpleArg h1,
      visitL_simpleArgs t imp path (i + 1) ctx h2]

theorem visit_identCall_skip {imp : List String} {path : List Nat}
    {ctx : List Frame} {name : String} {args : NodeList}
    (hargs : simpleArgs args = true)
    (hctx : isInReturnContext ctx = true ∨ isImmediatelyHandled ctx = true) :
    visitN imp path ctx (.call (.ident name) args) = (imp, []) := by
  have hcv : callExpressionVisitor imp path ctx (.ident name) = [] := by
    rcases hctx with h | h
    · exact callVisitor_of_retCtx h imp path _
    · exact callVisitor_of_handledCtx h imp path _
  simp [visitN, hcv,
    visitL_simpleArgs args imp path 1 (.frCall false :: ctx) hargs]

theorem visit_identCall_report {imp : List String} {path : List Nat}
    {ctx : List Frame} {name : String} {args : NodeList}
    (hret : isInReturnContext ctx = false)
    (hh : isImmediatelyHandled ctx = false)
    (hargs : simpleArgs args = true) :
    visitN imp path ctx (.call (.ident name) args)
      = (imp,
        (if FACTORY_NAMES.contains name && imp.contains name then
          [⟨path, RULE_MESSAGE⟩] else [])
        ++
        (if nameContainsResult name && !(EXCLUDED_NAMES.contains name) then
          [⟨path, RULE_MESSAGE⟩] else [])) := by
  simp [visitN, callExpressionVisitor, hret, hh,
    visitL_simpleArgs args imp path 1 (.frCall false :: ctx) hargs]

theorem visit_newE_skip {imp : List String} {path : List Nat}
    {ctx : List Frame} {name : String} {args : NodeList}
    (hargs : simpleArgs args = true)
    (hctx : isInReturnContext ctx = true ∨ isImmediatelyHandled ctx = true) :
    visitN imp path ctx (.newE (.ident name) args) = (imp, []) := by
  have hcv : newExpressionVisitor path ctx (.newE (.ident name) args) = [] := by
    rcases hctx with h | h
    · exact newVisitor_of_retCtx h path _
    · exact newVisitor_of_handledCtx h path _
  simp [visitN, hcv,
    visitL_simpleArgs args imp path 1 (.frNew false :: ctx) hargs]

theorem visit_newE_report {imp : List String} {path : List Nat}
    {ctx : List Frame} {name : String} {args : NodeList}
    (hret : isInReturnContext ctx = false)
    (hh : isImmediatelyHandled ctx = false)
    (hargs : simpleArgs args = true) :
    visitN imp path ctx (.newE (.ident name) args)
      = (imp,
        if name == "Ok" || name == "Err" then [⟨path, RULE_MESSAGE⟩]
        else []) := by
  simp [visitN, newExpressionVisitor, isResultConstructorCall, hret, hh,
    visitL_simpleArgs args imp path 1 (.frNew false :: ctx) hargs]

theorem visit_producing_skip {imp : List String} {base : Node}
    (hp : ProducingN imp base) {ctx : List Frame}
    (hctx : isInReturnContext ctx = true ∨ isImmediatelyHandled ctx = true)
    (path : List Nat) : visitN imp path ctx base = (imp, []) := by
  cases hp with
  | factory name args hf hb hs => exact visit_identCall_skip hs hctx
  | ctor name args hn hs => exact visit_newE_skip hs hctx

theorem visit_producing_report {imp : List String} {base : Node}
    (hp : ProducingN imp base) {ctx : List Frame}
    (hret : isInReturnContext ctx = false)
    (hh : isImmediatelyHandled ctx = false) (path : List Nat) :
    visitN imp path ctx base = (imp, [⟨path, RULE_MESSAGE⟩]) := by
  cases hp with
  | factory name args hf hb hs =>
    rw [visit_identCall_report hret hh hs]
    simp [hf, hb, factory_not_result hf]
    exact ⟨contains_eq_true_iff.mp hf, contains_eq_true_iff.mp hb⟩
  | ctor name args hn hs =>
    rw [visit_newE_report hret hh hs]
    rcases hn with rfl | rfl <;> rfl

theorem quiet_identCall {name : String} {args : NodeList}
    (hargs : simpleArgs args = true) :
    QuietAt (.call (.ident name) args) :=
  fun _ _ _ hctx => visit_identCall_skip hargs (Or.inr hctx)

theorem quiet_newE {name : String} {args : NodeList}
    (hargs : simpleArgs args = true) :
    QuietAt (.newE (.ident name) args) :=
  fun _ _ _ hctx => visit_newE_skip hargs (Or.inr hctx)

theorem quiet_producing {imp : List String} {base : Node}
    (hp : ProducingN imp base) : QuietAt base := by
  cases hp with
  | factory name args hf hb hs => exact quiet_identCall hs
  | ctor name args hn hs => exact quiet_newE hs

theorem quiet_wrap {base : Node} (hq : QuietAt base) (m : String) :
    QuietAt (.call (.member base m false) .nil) := by
  intro imp path ctx hctx
  have hbase := hq imp ((path ++ [0]) ++ [0])
    (.frMember true (some m) :: .frCall true :: ctx)
    (handled_cons_member_call hctx)
  simp [visitN, callVisitor_member, getMethodName, visitL]
  simpa using hbase

theorem quiet_chainWrap : ∀ (ms : List String) {base : Node},
    QuietAt base → QuietAt (chainWrap base ms)
  | [], _, hq => hq
  | m :: ms, _, hq => quiet_chainWrap ms (quiet_wrap hq m)

theorem reportDeep_producing {imp : List String} {base : Node}
    (hp : ProducingN imp base) : ReportDeep imp 0 base := by
  intro path ctx hret hh
  simpa using visit_producing_report hp hret hh path

theorem reportDeep_wrap {imp : List String} {k : Nat} {base : Node}
    (hr : ReportDeep imp k base) {m : String}
    (hm : HANDLED_METHODS.contains m = false) :
    ReportDeep imp (k + 2) (.call (.member base m false) .nil) := by
  intro path ctx hret hh
  have hret2 : isInReturnContext
      (.frMember true (some m) :: .frCall true :: ctx) = false := by
    simpa [isInReturnContext] using hret
  have hh2 : isImmediatelyHandled
      (.frMember true (some m) :: .frCall true :: ctx) = false := by
    rw [handled_cons_notHandled hm]
    exact hh
  have hbase := hr ((path ++ [0]) ++ [0])
    (.frMember true (some m) :: .frCall true :: ctx) hret2 hh2
  have hanchor : ((path ++ [0]) ++ [0]) ++ List.replicate k 0
      = path ++ List.replicate (k + 2) 0 := by
    simp [List.replicate_succ, List.append_assoc]
  rw [hanchor] at hbase
  simp [visitN, callVisitor_member, getMethodName, visitL]
  simpa using hbase

theorem reportDeep_chainWrap : ∀ (ms : List String) {imp : List String}
    {k : Nat} {base : Node}, ReportDeep imp k base →
    (∀ m ∈ ms, HANDLED_METHODS.contains m = false) →
    ReportDeep imp (k + 2 * ms.length) (chainWrap base ms)
  | [], _, k, _, hr, _ => by simpa using hr
  | m :: ms, imp, k, base, hr, hms => by
    have h1 : HANDLED_METHODS.contains m = false := hms m (by simp)
    have hrec := reportDeep_chainWrap ms (reportDeep_wrap hr h1)
      (fun x hx => hms x (by simp [hx]))
    have harith : k + 2 * (m :: ms).length = k + 2 + 2 * ms.length := by
      simp [List.length_cons]
      omega
    rw [harith]
    exact hrec

/- ### Claim theorems -/

/-- Claim C1: a bare-statement call whose callee is a bare identifier equal
to one of the four factory names yields exactly one diagnostic when that
name is bound in the Import Registry, and zero diagnostics when it is not
registry-bound. -/
theorem claim1_factory_call_flagged_iff_bound (imp : List String)
    (path : List Nat) (name : String) (args : NodeList)
    (hf : FACTORY_NAMES.contains name = true)
    (hargs : simpleArgs args = true) :
    (visitN imp path [Frame.frProgram]
        (.exprStmt (.call (.ident name) args))).2
      = if imp.contains name then [⟨path ++ [0], RULE_MESSAGE⟩] else [] := by
  have hret : isInReturnContext [Frame.frExprStmt, Frame.frProgram]
      = false := rfl
  have hh : isImmediatelyHandled [Frame.frExprStmt, Frame.frProgram]
      = false := rfl
  have hcv : callExpressionVisitor imp (path ++ [0])
      [Frame.frExprStmt, Frame.frProgram] (.ident name)
      = if imp.contains name then [⟨path ++ [0], RULE_MESSAGE⟩] else [] := by
    simp [callExpressionVisitor, hret, hh, hf, factory_not_result hf,
      contains_eq_true_iff.mp hf]
  have hargsL := visitL_simpleArgs args imp (path ++ [0]) 1
    [Frame.frCall false, Frame.frExprStmt, Frame.frProgram] hargs
  simp [visitN, exprStmtVisitor_eq_nil, hcv, hargsL]

/-- Witness for C1 at a concrete input: `ok("v");` with `ok` bound. -/
theorem claim1_witness :
    (visitN ["ok"] [] [Frame.frProgram]
        (.exprStmt (.call (.ident "ok") (.cons (.lit "v") .nil)))).2
      = if (["ok"] : List String).contains "ok" then
          [⟨[0], RULE_MESSAGE⟩] else [] :=
  claim1_factory_call_flagged_iff_bound ["ok"] [] "ok"
    (.cons (.lit "v") .nil) (by decide) (by decide)

/-- Claim C2: a producing call (registry-bound factory call or `Ok`/`Err`
constructor invocation) followed through any number of transforming-method
steps by an invoked terminal handling method yields zero diagnostics. -/
theorem claim2_handled_chain_not_flagged (imp : List String)
    (path : List Nat) (base : Node) (ms : List String) (h : String)
    (hp : ProducingN imp base)
    (hms : ∀ m ∈ ms, RESULT_METHODS.contains m = true)
    (hh : HANDLED_METHODS.contains h = true) :
    (visitN imp path [Frame.frProgram]
        (.exprStmt (chainCall base ms h))).2 = [] := by
  have hq := quiet_chainWrap ms (quiet_producing hp)
  have hhandled : isImmediatelyHandled
      (.frMember true (some h) :: .frCall true ::
        [Frame.frExprStmt, Frame.frProgram]) = true :=
    handled_of_handled_head hh
  have hbase := hq imp (((path ++ [0]) ++ [0]) ++ [0])
    (.frMember true (some h) :: .frCall true ::
      [Frame.frExprStmt, Frame.frProgram]) hhandled
  simp [visitN, chainCall, exprStmtVisitor_eq_nil, callVisitor_member,
    getMethodName, visitL]
  simpa using congrArg Prod.snd hbase

/-- Witness for C2: `ok().map().andThen().unwrapOr()` as a bare statement
yields no diagnostics. -/
theorem claim2_witness :
    (visitN ["ok"] [] [Frame.frProgram]
        (.exprStmt (chainCall (.call (.ident "ok") .nil)
          ["map", "andThen"] "unwrapOr"))).2 = [] :=
  claim2_handled_chain_not_flagged ["ok"] [] (.call (.ident "ok") .nil)
    ["map", "andThen"] "unwrapOr"
    (.factory "ok" .nil (by decide) (by decide) (by decide))
    (by decide) (by decide)

/-- Claim C3: the same chain terminated by a non-handling method yields
exactly one diagnostic, anchored at the original producing node and not at
the terminal call of the chain. -/
theorem claim3_query_chain_flagged_at_producer (imp : List String)
    (path : List Nat) (base : Node) (ms : List String) (q : String)
    (hp : ProducingN imp base)
    (hms : ∀ m ∈ ms, RESULT_METHODS.contains m = true)
    (hq : HANDLED_METHODS.contains q = false) :
    (visitN imp path [Frame.frProgram]
        (.exprStmt (chainCall base ms q))).2
      = [⟨chainAnchor path ms.length, RULE_MESSAGE⟩]
    ∧ chainAnchor path ms.length ≠ path ++ [0] := by
  constructor
  · have hms' : ∀ m ∈ ms, HANDLED_METHODS.contains m = false :=
      fun m hm => result_methods_not_handled (hms m hm)
    have hrd := reportDeep_chainWrap ms (reportDeep_producing hp) hms'
    have hret : isInReturnContext
        (.frMember true (some q) :: .frCall true ::
          [Frame.frExprStmt, Frame.frProgram]) = false := rfl
    have hhq : isImmediatelyHandled
        (.frMember true (some q) :: .frCall true ::
          [Frame.frExprStmt, Frame.frProgram]) = false := by
      rw [handled_cons_notHandled hq]
      rfl
    have hbase := hrd (((path ++ [0]) ++ [0]) ++ [0])
      (.frMember true (some q) :: .frCall true ::
        [Frame.frExprStmt, Frame.frProgram]) hret hhq
    have hanchor : ((((path ++ [0]) ++ [0]) ++ [0])
        ++ List.replicate (0 + 2 * ms.length) 0)
        = chainAnchor path ms.length := by
      simp [chainAnchor, List.append_assoc]
    rw [hanchor] at hbase
    simp [visitN, chainCall, exprStmtVisitor_eq_nil, callVisitor_member,
      getMethodName, visitL]
    simpa using congrArg Prod.snd hbase
  · intro hcontra
    have := congrArg List.length hcontra
    simp [chainAnchor] at this

/-- Witness for C3: `ok().map().isOk()` as a bare statement yields one
diagnostic anchored at the `ok()` node. -/
theorem claim3_witness :
    (visitN ["ok"] [] [Frame.frProgram]
        (.exprStmt (chainCall (.call (.ident "ok") .nil) ["map"] "isOk"))).2
      = [⟨chainAnchor [] 1, RULE_MESSAGE⟩]
    ∧ chainAnchor [] 1 ≠ [0] :=
  claim3_query_chain_flagged_at_producer ["ok"] []
    (.call (.ident "ok") .nil) ["map"] "isOk"
    (.factory "ok" .nil (by decide) (by decide) (by decide))
    (by decide) (by decide)

/-- Claim C4: a producing call that is the operand of a return statement or
on the direct expression path of an expression-form arrow-function body,
possibly nested through wrapper expressions, yields zero diagnostics. -/
theorem claim4_delegated_not_flagged (imp : List String) (path : List Nat)
    (pre rest : List Frame) (base : Node) (hp : ProducingN imp base)
    (hpre : ∀ f ∈ pre, isWrapperFrame f = true) :
    visitN imp path (pre ++ Frame.frRet :: rest) base = (imp, [])
    ∧ visitN imp path (pre ++ Frame.frArrow true :: rest) base
        = (imp, []) := by
  have hcont : ∀ f ∈ pre, continuesWalk f = true :=
    fun f hf => wrapper_continuesWalk (hpre f hf)
  exact ⟨visit_producing_skip hp (Or.inl (retWalk_of_ret hcont)) path,
    visit_producing_skip hp (Or.inl (retWalk_of_arrowBody hcont)) path⟩

/-- Witness for C4: `return f(ok())` (the producing call nested in a call
argument under the return) and `() => ok()` are both exempt. -/
theorem claim4_witness :
    visitN ["ok"] [] ([Frame.frCall false]
        ++ Frame.frRet :: [Frame.frBlock, Frame.frFuncDecl,
          Frame.frProgram]) (.call (.ident "ok") .nil) = (["ok"], [])
    ∧ visitN ["ok"] [] ([Frame.frCall false]
        ++ Frame.frArrow true :: [Frame.frProgram])
        (.call (.ident "ok") .nil) = (["ok"], []) :=
  ⟨(claim4_delegated_not_flagged ["ok"] [] [Frame.frCall false]
      [Frame.frBlock, Frame.frFuncDecl, Frame.frProgram]
      (.call (.ident "ok") .nil)
      (.factory "ok" .nil (by decide) (by decide) (by decide))
      (by decide)).1,
   (claim4_delegated_not_flagged ["ok"] [] [Frame.frCall false]
      [Frame.frProgram] (.call (.ident "ok") .nil)
      (.factory "ok" .nil (by decide) (by decide) (by decide))
      (by decide)).2⟩

/-- Claim C5: the delegation walk halts at the nearest enclosing block or
function boundary and never looks past it, so a producing call inside a
conditional body yields exactly one diagnostic even when the enclosing
function contains an unrelated return statement elsewhere. -/
theorem claim5_boundary_halts_delegation (pre rest : List Frame)
    (hpre : ∀ f ∈ pre, continuesWalk f = true) (imp : List String)
    (path : List Nat) (fname : String) (cond other n : Node)
    (hc : simpleArg cond = true) (hpn : ProducingN imp n)
    (hpo : ProducingN imp other) :
    isInReturnContext (pre ++ Frame.frBlock :: rest) = false
    ∧ isInReturnContext (pre ++ Frame.frFuncDecl :: rest) = false
    ∧ (visitN imp path [Frame.frProgram]
        (.funcDecl fname (.block (.cons
          (.ifS cond (.block (.cons (.exprStmt n) .nil)))
          (.cons (.retE other) .nil))))).2
      = [⟨path ++ [0, 0, 1, 0, 0], RULE_MESSAGE⟩] := by
  refine ⟨retWalk_halts_at_block hpre, retWalk_halts_at_funcDecl hpre, ?_⟩
  have hret : isInReturnContext [Frame.frExprStmt, Frame.frBlock,
      Frame.frIf, Frame.frBlock, Frame.frFuncDecl, Frame.frProgram]
      = false := rfl
  have hh : isImmediatelyHandled [Frame.frExprStmt, Frame.frBlock,
      Frame.frIf, Frame.frBlock, Frame.frFuncDecl, Frame.frProgram]
      = false := rfl
  have hn := visit_producing_report hpn hret hh (path ++ [0, 0, 1, 0, 0])
  have hretOther : isInReturnContext [Frame.frRet, Frame.frBlock,
      Frame.frFuncDecl, Frame.frProgram] = true := rfl
  have hother := visit_producing_skip hpo (Or.inl hretOther)
    (path ++ [0, 1, 0])
  have hcond := visit_simpleArg hc imp (path ++ [0, 0, 0])
    [Frame.frIf, Frame.frBlock, Frame.frFuncDecl, Frame.frProgram]
  simp [visitN, visitL, exprStmtVisitor_eq_nil]
  simp [hcond, hn, hother]

/-- Witness for C5: `function f() { if (c) { ok(); } return err(); }` with
both factories bound yields one diagnostic at the inner `ok()` call. -/
theorem claim5_witness :
    isInReturnContext ([Frame.frExprStmt]
        ++ Frame.frBlock :: [Frame.frRet]) = false
    ∧ isInReturnContext ([Frame.frExprStmt]
        ++ Frame.frFuncDecl :: [Frame.frRet]) = false
    ∧ (visitN ["ok", "err"] [] [Frame.frProgram]
        (.funcDecl "f" (.block (.cons
          (.ifS (.ident "c") (.block (.cons
            (.exprStmt (.call (.ident "ok") .nil)) .nil)))
          (.cons (.retE (.call (.ident "err") .nil)) .nil))))).2
      = [⟨[0, 0, 1, 0, 0], RULE_MESSAGE⟩] :=
  claim5_boundary_halts_delegation [Frame.frExprStmt] [Frame.frRet]
    (by decide) ["ok", "err"] [] "f" (.ident "c")
    (.call (.ident "err") .nil) (.call (.ident "ok") .nil)
    (by decide)
    (.factory "ok" .nil (by decide) (by decide) (by decide))
    (.factory "err" .nil (by decide) (by decide) (by decide))

/-- Claim C6: a bare-statement `new Ok(...)` or `new Err(...)` yields
exactly one diagnostic regardless of import bindings, with the fixed
message shared by every diagnostic kind. -/
theorem claim6_constructor_flagged_any_registry (imp : List String)
    (path : List Nat) (name : String) (args : NodeList)
    (hn : name = "Ok" ∨ name = "Err") (hargs : simpleArgs args = true) :
    (visitN imp path [Frame.frProgram]
        (.exprStmt (.newE (.ident name) args))).2
      = [⟨path ++ [0],
          "Result must be handled with either match, unwrapOr, or _unsafeUnwrap"⟩]
      := by
  have hret : isInReturnContext [Frame.frExprStmt, Frame.frProgram]
      = false := rfl
  have hh : isImmediatelyHandled [Frame.frExprStmt, Frame.frProgram]
      = false := rfl
  have hcv : newExpressionVisitor (path ++ [0])
      [Frame.frExprStmt, Frame.frProgram] (.newE (.ident name) args)
      = [⟨path ++ [0], RULE_MESSAGE⟩] := by
    rcases hn with rfl | rfl <;>
      simp [newExpressionVisitor, hret, hh, isResultConstructorCall]
  have hargsL := visitL_simpleArgs args imp (path ++ [0]) 1
    [Frame.frNew false, Frame.frExprStmt, Frame.frProgram] hargs
  simp [visitN, exprStmtVisitor_eq_nil, hcv, hargsL, RULE_MESSAGE]

/-- Witness for C6: `new Ok("v");` with an empty registry. -/
theorem claim6_witness :
    (visitN [] [] [Frame.frProgram]
        (.exprStmt (.newE (.ident "Ok") (.cons (.lit "v") .nil)))).2
      = [⟨[0],
          "Result must be handled with either match, unwrapOr, or _unsafeUnwrap"⟩]
      :=
  claim6_constructor_flagged_any_registry [] [] "Ok"
    (.cons (.lit "v") .nil) (Or.inl rfl) (by decide)

/-- Claim C7: a bare-statement call whose callee name contains "result"
case-insensitively and is absent from the exclusion list yields exactly one
diagnostic with no import check, while a callee name present on the
exclusion list yields zero diagnostics. -/
theorem claim7_heuristic_and_exclusions (imp : List String)
    (path : List Nat) (n1 n2 : String) (args1 args2 : NodeList)
    (h1 : nameContainsResult n1 = true)
    (h1e : EXCLUDED_NAMES.contains n1 = false)
    (h2e : EXCLUDED_NAMES.contains n2 = true)
    (hargs1 : simpleArgs args1 = true) (hargs2 : simpleArgs args2 = true) :
    (visitN imp path [Frame.frProgram]
        (.exprStmt (.call (.ident n1) args1))).2
      = [⟨path ++ [0], RULE_MESSAGE⟩]
    ∧ (visitN imp path [Frame.frProgram]
        (.exprStmt (.call (.ident n2) args2))).2 = [] := by
  have hret : isInReturnContext [Frame.frExprStmt, Frame.frProgram]
      = false := rfl
  have hh : isImmediatelyHandled [Frame.frExprStmt, Frame.frProgram]
      = false := rfl
  constructor
  · have hnf1 : FACTORY_NAMES.contains n1 = false := by
      cases hcf : FACTORY_NAMES.contains n1 with
      | false => rfl
      | true =>
        rw [factory_not_result hcf] at h1
        exact absurd h1 (by simp)
    have hcv : callExpressionVisitor imp (path ++ [0])
        [Frame.frExprStmt, Frame.frProgram] (.ident n1)
        = [⟨path ++ [0], RULE_MESSAGE⟩] := by
      simp [callExpressionVisitor, hret, hh, h1,
        not_mem_of_contains_eq_false hnf1,
        not_mem_of_contains_eq_false h1e]
    have hargsL := visitL_simpleArgs args1 imp (path ++ [0]) 1
      [Frame.frCall false, Frame.frExprStmt, Frame.frProgram] hargs1
    simp [visitN, exprStmtVisitor_eq_nil, hcv, hargsL]
  · have hnf2 : FACTORY_NAMES.contains n2 = false :=
      excluded_not_factory h2e
    have hcv : callExpressionVisitor imp (path ++ [0])
        [Frame.frExprStmt, Frame.frProgram] (.ident n2) = [] := by
      simp [callExpressionVisitor, hret, hh]
      exact ⟨fun hmem => absurd hmem (not_mem_of_contains_eq_false hnf2),
        fun _ => contains_eq_true_iff.mp h2e⟩
    have hargsL := visitL_simpleArgs args2 imp (path ++ [0]) 1
      [Frame.frCall false, Frame.frExprStmt, Frame.frProgram] hargs2
    simp [visitN, exprStmtVisitor_eq_nil, hcv, hargsL]

/-- Witness for C7: `getResult();` is flagged once and `checkResult();` is
not flagged, both with an empty registry. -/
theorem claim7_witness :
    (visitN [] [] [Frame.frProgram]
        (.exprStmt (.call (.ident "getResult") .nil))).2
      = [⟨[0], RULE_MESSAGE⟩]
    ∧ (visitN [] [] [Frame.frProgram]
        (.exprStmt (.call (.ident "checkResult") .nil))).2 = [] :=
  claim7_heuristic_and_exclusions [] [] "getResult" "checkResult" .nil .nil
    (by decide) (by decide) (by decide) (by decide) (by decide)

/-- Claim C8: the Import Registry is cleared at the start of every
compilation unit: a unit's diagnostic sequence does not depend on the
registry state left by previously analyzed units, so a sequence of units
produces exactly the diagnostics of each unit analyzed fresh. -/
theorem claim8_no_cross_unit_leakage (imp : List String) (stmts : NodeList)
    (units : List NodeList) :
    (visitN imp [] [] (.program stmts)).2 = lintUnit (.program stmts)
    ∧ lintUnits imp (units.map Node.program)
        = units.map (fun s => lintUnit (.program s)) := by
  constructor
  · rfl
  · induction units generalizing imp with
    | nil => rfl
    | cons s ss ih => simp [lintUnits, lintUnit, visitN, ih]

/-- Claim C10: a heuristic producing call receives the same two exemptions
as factory and constructor producers: delegated return/arrow-body contexts
and chains terminated by an invoked handling method both yield zero
diagnostics. -/
theorem claim10_heuristic_same_exemptions (imp : List String)
    (path : List Nat) (name : String) (args : NodeList)
    (pre rest : List Frame) (ms : List String) (h : String)
    (hres : nameContainsResult name = true)
    (hexc : EXCLUDED_NAMES.contains name = false)
    (hargs : simpleArgs args = true)
    (hpre : ∀ f ∈ pre, isWrapperFrame f = true)
    (hms : ∀ m ∈ ms, RESULT_METHODS.contains m = true)
    (hh : HANDLED_METHODS.contains h = true) :
    visitN imp path (pre ++ Frame.frRet :: rest)
        (.call (.ident name) args) = (imp, [])
    ∧ visitN imp path (pre ++ Frame.frArrow true :: rest)
        (.call (.ident name) args) = (imp, [])
    ∧ (visitN imp path [Frame.frProgram]
        (.exprStmt (chainCall (.call (.ident name) args) ms h))).2
      = [] := by
  have hcont : ∀ f ∈ pre, continuesWalk f = true :=
    fun f hf => wrapper_continuesWalk (hpre f hf)
  refine ⟨visit_identCall_skip hargs (Or.inl (retWalk_of_ret hcont)),
    visit_identCall_skip hargs (Or.inl (retWalk_of_arrowBody hcont)), ?_⟩
  have hq := quiet_chainWrap ms (@quiet_identCall name args hargs)
  have hhandled : isImmediatelyHandled
      (.frMember true (some h) :: .frCall true ::
        [Frame.frExprStmt, Frame.frProgram]) = true :=
    handled_of_handled_head hh
  have hbase := hq imp (((path ++ [0]) ++ [0]) ++ [0])
    (.frMember true (some h) :: .frCall true ::
      [Frame.frExprStmt, Frame.frProgram]) hhandled
  simp [visitN, chainCall, exprStmtVisitor_eq_nil, callVisitor_member,
    getMethodName, visitL]
  simpa using congrArg Prod.snd hbase

/-- Witness for C10: `return getResult()` and
`getResult().map().match()` both yield no diagnostics. -/
theorem claim10_witness :
    visitN [] [] ([] ++ Frame.frRet :: [Frame.frBlock, Frame.frProgram])
        (.call (.ident "getResult") .nil) = ([], [])
    ∧ visitN [] [] ([] ++ Frame.frArrow true :: [Frame.frProgram])
        (.call (.ident "getResult") .nil) = ([], [])
    ∧ (visitN [] [] [Frame.frProgram]
        (.exprStmt (chainCall (.call (.ident "getResult") .nil)
          ["map"] "match"))).2 = [] :=
  claim10_heuristic_same_exemptions [] [] "getResult" .nil []
    [Frame.frBlock, Frame.frProgram] ["map"] "match" (by decide) (by decide)
    (by decide) (by decide) (by decide) (by decide)

/- ### Deduplication: shape lemmas and anchor bookkeeping -/

theorem visitN_call_snd (imp : List String) (path : List Nat)
    (ctx : List Frame) (callee : Node) (args : NodeList) :
    (visitN imp path ctx (.call callee args)).2
      = callExpressionVisitor imp path ctx callee
        ++ (visitN imp (path ++ [0]) (.frCall true :: ctx) callee).2
        ++ (visitL (visitN imp (path ++ [0]) (.frCall true :: ctx) callee).1
              path 1 (.frCall false :: ctx) args).2 := rfl

theorem visitN_newE_snd (imp : List String) (path : List Nat)
    (ctx : List Frame) (callee : Node) (args : NodeList) :
    (visitN imp path ctx (.newE callee args)).2
      = newExpressionVisitor path ctx (.newE callee args)
        ++ (visitN imp (path ++ [0]) (.frNew true :: ctx) callee).2
        ++ (visitL (visitN imp (path ++ [0]) (.frNew true :: ctx) callee).1
              path 1 (.frNew false :: ctx) args).2 := rfl

theorem visitN_exprStmt_snd (imp : List String) (path : List Nat)
    (ctx : List Frame) (e : Node) :
    (visitN imp path ctx (.exprStmt e)).2
      = expressionStatementVisitor imp ctx e
        ++ (visitN imp (path ++ [0]) (.frExprStmt :: ctx) e).2 := rfl

theorem visitN_ifS_snd (imp : List String) (path : List Nat)
    (ctx : List Frame) (cond thn : Node) :
    (visitN imp path ctx (.ifS cond thn)).2
      = (visitN imp (path ++ [0]) (.frIf :: ctx) cond).2
        ++ (visitN (visitN imp (path ++ [0]) (.frIf :: ctx) cond).1
              (path ++ [1]) (.frIf :: ctx) thn).2 := rfl

theorem visitN_whileS_snd (imp : List String) (path : List Nat)
    (ctx : List Frame) (cond body : Node) :
    (visitN imp path ctx (.whileS cond body)).2
      = (visitN imp (path ++ [0]) (.frWhile :: ctx) cond).2
        ++ (visitN (visitN imp (path ++ [0]) (.frWhile :: ctx) cond).1
              (path ++ [1]) (.frWhile :: ctx) body).2 := rfl

theorem visitL_cons_snd (imp : List String) (path : List Nat) (i : Nat)
    (ctx : List Frame) (a : Node) (t : NodeList) :
    (visitL imp path i ctx (.cons a t)).2
      = (visitN imp (path ++ [i]) ctx a).2
        ++ (visitL (visitN imp (path ++ [i]) ctx a).1 path (i + 1) ctx t).2
      := rfl

theorem callVisitor_anchor (imp : List String) (path : List Nat)
    (ctx : List Frame) (callee : Node) :
    callExpressionVisitor imp path ctx callee = []
    ∨ callExpressionVisitor imp path ctx callee
        = [⟨path, RULE_MESSAGE⟩] := by
  unfold callExpressionVisitor
  split
  · exact Or.inl rfl
  split
  · exact Or.inl rfl
  split
  · rename_i name
    by_cases h1 : (FACTORY_NAMES.contains name && imp.contains name) = true
    · have hf : FACTORY_NAMES.contains name = true :=
        (Bool.and_eq_true _ _ |>.mp h1).1
      have hncr := factory_not_result hf
      rw [if_pos h1, if_neg (by simp [hncr])]
      exact Or.inr rfl
    · rw [if_neg h1]
      by_cases h2 : (nameContainsResult name
          && !(EXCLUDED_NAMES.contains name)) = true
      · rw [if_pos h2]
        exact Or.inr rfl
      · rw [if_neg h2]
        exact Or.inl rfl
  · exact Or.inl rfl

theorem newVisitor_anchor (path : List Nat) (ctx : List Frame)
    (node : Node) :
    newExpressionVisitor path ctx node = []
    ∨ newExpressionVisitor path ctx node = [⟨path, RULE_MESSAGE⟩] := by
  unfold newExpressionVisitor
  split
  · exact Or.inl rfl
  split
  · exact Or.inl rfl
  split
  · exact Or.inr rfl
  · exact Or.inl rfl

theorem anchors_disjoint {path : List Nat} {i : Nat}
    {A B : List (List Nat)} (hA : ∀ a ∈ A, ∃ t, a = path ++ i :: t)
    (hB : ∀ b ∈ B, ∃ j t, i < j ∧ b = path ++ j :: t) : A.Disjoint B := by
  intro x hxA hxB
  obtain ⟨t, rfl⟩ := hA x hxA
  obtain ⟨j, u, hij, heq⟩ := hB _ hxB
  have hcons := List.append_cancel_left heq
  injection hcons with h1 _
  omega

theorem path_not_mem_extended {path : List Nat} {C : List (List Nat)}
    (hC : ∀ a ∈ C, ∃ j t, a = path ++ j :: t) : ¬ path ∈ C := by
  intro hmem
  obtain ⟨j, t, heq⟩ := hC path hmem
  have := congrArg List.length heq
  simp at this

theorem combine_call_shape {path : List Nat} {own d1 d2 : List (List Nat)}
    (hown : own = [] ∨ own = [path]) (h1n : d1.Nodup)
    (h1p : ∀ a ∈ d1, ∃ t, a = (path ++ [0]) ++ t) (h2n : d2.Nodup)
    (h2p : ∀ a ∈ d2, ∃ j t, 1 ≤ j ∧ a = path ++ j :: t) :
    (own ++ d1 ++ d2).Nodup
    ∧ ∀ a ∈ own ++ d1 ++ d2, ∃ t, a = path ++ t := by
  have h1p' : ∀ a ∈ d1, ∃ t, a = path ++ 0 :: t := by
    intro a ha
    obtain ⟨t, rfl⟩ := h1p a ha
    exact ⟨t, by simp⟩
  have h2p' : ∀ b ∈ d2, ∃ j t, 0 < j ∧ b = path ++ j :: t := by
    intro b hb
    obtain ⟨j, t, hj, rfl⟩ := h2p b hb
    exact ⟨j, t, by omega, rfl⟩
  have hd12 : (d1 ++ d2).Nodup := by
    rw [List.nodup_append]
    exact ⟨h1n, h2n, anchors_disjoint h1p' h2p'⟩
  have hd12p : ∀ a ∈ d1 ++ d2, ∃ j t, a = path ++ j :: t := by
    intro a ha
    rcases List.mem_append.mp ha with h | h
    · obtain ⟨t, rfl⟩ := h1p' a h
      exact ⟨0, t, rfl⟩
    · obtain ⟨j, t, _, rfl⟩ := h2p' a h
      exact ⟨j, t, rfl⟩
  constructor
  · rcases hown with rfl | rfl
    · simpa using hd12
    · rw [List.append_assoc]
      have : ([path] ++ (d1 ++ d2)) = path :: (d1 ++ d2) := rfl
      rw [this, List.nodup_cons]
      exact ⟨path_not_mem_extended hd12p, hd12⟩
  · intro a ha
    rw [List.append_assoc] at ha
    rcases List.mem_append.mp ha with h | h
    · rcases hown with rfl | rfl
      · simp at h
      · simp at h
        exact ⟨[], by simp [h]⟩
    · obtain ⟨j, t, rfl⟩ := hd12p a h
      exact ⟨j :: t, rfl⟩

theorem combine_two_shape {path : List Nat} {d1 d2 : List (List Nat)}
    (h1n : d1.Nodup) (h1p : ∀ a ∈ d1, ∃ t, a = (path ++ [0]) ++ t)
    (h2n : d2.Nodup) (h2p : ∀ a ∈ d2, ∃ t, a = (path ++ [1]) ++ t) :
    (d1 ++ d2).Nodup ∧ ∀ a ∈ d1 ++ d2, ∃ t, a = path ++ t := by
  have h1p' : ∀ a ∈ d1, ∃ t, a = path ++ 0 :: t := by
    intro a ha
    obtain ⟨t, rfl⟩ := h1p a ha
    exact ⟨t, by simp⟩
  have h2p' : ∀ b ∈ d2, ∃ j t, 0 < j ∧ b = path ++ j :: t := by
    intro b hb
    obtain ⟨t, rfl⟩ := h2p b hb
    exact ⟨1, t, by omega, by simp⟩
  constructor
  · rw [List.nodup_append]
    exact ⟨h1n, h2n, anchors_disjoint h1p' h2p'⟩
  · intro a ha
    rcases List.mem_append.mp ha with h | h
    · obtain ⟨t, rfl⟩ := h1p' a h
      exact ⟨0 :: t, rfl⟩
    · obtain ⟨j, t, _, rfl⟩ := h2p' a h
      exact ⟨j :: t, rfl⟩

theorem single_child_shape {path : List Nat} {i : Nat}
    {d : List (List Nat)} (hn : d.Nodup)
    (hp : ∀ a ∈ d, ∃ t, a = (path ++ [i]) ++ t) :
    d.Nodup ∧ ∀ a ∈ d, ∃ t, a = path ++ t := by
  refine ⟨hn, fun a ha => ?_⟩
  obtain ⟨t, rfl⟩ := hp a ha
  exact ⟨i :: t, by simp⟩

mutual
theorem anchors_ok : ∀ (n : Node) (imp : List String) (path : List Nat)
    (ctx : List Frame),
    ((visitN imp path ctx n).2.map Diag.anchor).Nodup
    ∧ ∀ a ∈ (visitN imp path ctx n).2.map Diag.anchor, ∃ t, a = path ++ t
  | .ident _, imp, path, ctx => by simp [visitN]
  | .lit _, imp, path, ctx => by simp [visitN]
  | .retVoid, imp, path, ctx => by simp [visitN]
  | .importDecl s specs, imp, path, ctx => by simp [visitN]
  | .call callee args, imp, path, ctx => by
    have h1 := anchors_ok callee imp (path ++ [0]) (.frCall true :: ctx)
    have h2 := anchorsL_ok args
      (visitN imp (path ++ [0]) (.frCall true :: ctx) callee).1 path 1
      (.frCall false :: ctx)
    have hown : (callExpressionVisitor imp path ctx callee).map Diag.anchor
        = [] ∨ (callExpressionVisitor imp path ctx callee).map Diag.anchor
        = [path] := by
      rcases callVisitor_anchor imp path ctx callee with h | h <;>
        simp [h]
    rw [visitN_call_snd]
    simpa [List.map_append] using
      combine_call_shape hown h1.1 h1.2 h2.1 (fun a ha =>
        (h2.2 a ha).imp fun j hj => hj.imp fun t ht => ⟨ht.1, ht.2⟩)
  | .newE callee args, imp, path, ctx => by
    have h1 := anchors_ok callee imp (path ++ [0]) (.frNew true :: ctx)
    have h2 := anchorsL_ok args
      (visitN imp (path ++ [0]) (.frNew true :: ctx) callee).1 path 1
      (.frNew false :: ctx)
    have hown : (newExpressionVisitor path ctx
          (.newE callee args)).map Diag.anchor = []
        ∨ (newExpressionVisitor path ctx
          (.newE callee args)).map Diag.anchor = [path] := by
      rcases newVisitor_anchor path ctx (.newE callee args) with h | h <;>
        simp [h]
    rw [visitN_newE_snd]
    simpa [List.map_append] using
      combine_call_shape hown h1.1 h1.2 h2.1 (fun a ha =>
        (h2.2 a ha).imp fun j hj => hj.imp fun t ht => ⟨ht.1, ht.2⟩)
  | .member obj p c, imp, path, ctx => by
    have h := anchors_ok obj imp (path ++ [0])
      (.frMember true (getMethodName (.member obj p c)) :: ctx)
    exact single_child_shape h.1 h.2
  | .arrow body, imp, path, ctx => by
    have h := anchors_ok body imp (path ++ [0]) (.frArrow true :: ctx)
    exact single_child_shape h.1 h.2
  | .arrowBlock body, imp, path, ctx => by
    have h := anchors_ok body imp (path ++ [0]) (.frArrow true :: ctx)
    exact single_child_shape h.1 h.2
  | .funcExprE body, imp, path, ctx => by
    have h := anchors_ok body imp (path ++ [0]) (.frFuncExpr :: ctx)
    exact single_child_shape h.1 h.2
  | .exprStmt e, imp, path, ctx => by
    have h := anchors_ok e imp (path ++ [0]) (.frExprStmt :: ctx)
    rw [visitN_exprStmt_snd, exprStmtVisitor_eq_nil]
    exact single_child_shape h.1 h.2
  | .retE e, imp, path, ctx => by
    have h := anchors_ok e imp (path ++ [0]) (.frRet :: ctx)
    exact single_child_shape h.1 h.2
  | .funcDecl fn body, imp, path, ctx => by
    have h := anchors_ok body imp (path ++ [0]) (.frFuncDecl :: ctx)
    exact single_child_shape h.1 h.2
  | .ifS cond thn, imp, path, ctx => by
    have h1 := anchors_ok cond imp (path ++ [0]) (.frIf :: ctx)
    have h2 := anchors_ok thn
      (visitN imp (path ++ [0]) (.frIf :: ctx) cond).1 (path ++ [1])
      (.frIf :: ctx)
    rw [visitN_ifS_snd]
    simpa [List.map_append] using
      combine_two_shape h1.1 h1.2 h2.1 h2.2
  | .whileS cond body, imp, path, ctx => by
    have h1 := anchors_ok cond imp (path ++ [0]) (.frWhile :: ctx)
    have h2 := anchors_ok body
      (visitN imp (path ++ [0]) (.frWhile :: ctx) cond).1 (path ++ [1])
      (.frWhile :: ctx)
    rw [visitN_whileS_snd]
    simpa [List.map_append] using
      combine_two_shape h1.1 h1.2 h2.1 h2.2
  | .block stmts, imp, path, ctx => by
    have h := anchorsL_ok stmts imp path 0 (.frBlock :: ctx)
    refine ⟨h.1, fun a ha => ?_⟩
    obtain ⟨j, t, _, rfl⟩ := h.2 a ha
    exact ⟨j :: t, rfl⟩
  | .program stmts, imp, path, ctx => by
    have h := anchorsL_ok stmts [] path 0 (.frProgram :: ctx)
    refine ⟨h.1, fun a ha => ?_⟩
    obtain ⟨j, t, _, rfl⟩ := h.2 a ha
    exact ⟨j :: t, rfl⟩

theorem anchorsL_ok : ∀ (l : NodeList) (imp : List String)
    (path : List Nat) (i : Nat) (ctx : List Frame),
    ((visitL imp path i ctx l).2.map Diag.anchor).Nodup
    ∧ ∀ a ∈ (visitL imp path i ctx l).2.map Diag.anchor,
        ∃ j t, i ≤ j ∧ a = path ++ j :: t
  | .nil, imp, path, i, ctx => by simp [visitL]
  | .cons a t, imp, path, i, ctx => by
    have h1 := anchors_ok a imp (path ++ [i]) ctx
    have h2 := anchorsL_ok t (visitN imp (path ++ [i]) ctx a).1 path
      (i + 1) ctx
    have h1p : ∀ x ∈ (visitN imp (path ++ [i]) ctx a).2.map Diag.anchor,
        ∃ u, x = path ++ i :: u := by
      intro x hx
      obtain ⟨u, rfl⟩ := h1.2 x hx
      exact ⟨u, by simp⟩
    rw [visitL_cons_snd]
    rw [List.map_append]
    constructor
    · rw [List.nodup_append]
      refine ⟨h1.1, h2.1, anchors_disjoint h1p ?_⟩
      intro b hb
      obtain ⟨j, u, hj, rfl⟩ := h2.2 b hb
      exact ⟨j, u, by omega, rfl⟩
    · intro x hx
      rcases List.mem_append.mp hx with h | h
      · obtain ⟨u, rfl⟩ := h1p x h
        exact ⟨i, u, le_refl i, rfl⟩
      · obtain ⟨j, u, hj, rfl⟩ := h2.2 x h
        exact ⟨j, u, by omega, rfl⟩
end

/-- Claim C9: during a single traversal of a compilation unit, at most one
diagnostic is emitted anchored at any given node: the anchors of the
diagnostic sequence contain no duplicates. -/
theorem claim9_at_most_one_diagnostic_per_node (imp : List String)
    (path : List Nat) (ctx : List Frame) (n : Node) :
    ((visitN imp path ctx n).2.map Diag.anchor).Nodup :=
  (anchors_ok n imp path ctx).1

end NeverthrowLint
